import Mathlib

/-!
Shallow embedding of the GPU price tracker
(src/track_prices_efficient.py and src/view_prices.py).

Modelling conventions:
* Python floats are modelled as rationals; round(x, 2) becomes round2.
* float("inf") is the constructor Price.inf; finite prices are Price.fin q.
* Python dicts used for grouping preserve insertion order; groups are modelled
  by the ordered list of first-occurrence keys plus List.filter.
* The summary directory is a map from file name to an optional list of records
  (none = file absent); JSON serialisation round-tripping is the identity.
* Timestamps in the trend view are naive clock readings modelled as rationals
  (seconds); the current time and the stored timestamps are independent values.
-/

/-- Python round(x, 2): round to 2 decimal places. Python uses
round-half-to-even on binary floats; no claim settled here depends on the
behaviour at exact half-cent ties, so Mathlib round is used. -/
def round2 (x : ℚ) : ℚ := (round (100 * x) : ℤ) / 100

/-- Python min(...) over a list, 0 as junk value for the empty list
(on which the source never calls it). -/
def listMin : List ℚ → ℚ
  | [] => 0
  | x :: xs => xs.foldl min x

/-- Python max(...) over a list, 0 as junk value for the empty list. -/
def listMax : List ℚ → ℚ
  | [] => 0
  | x :: xs => xs.foldl max x

/-- calculate_percentile (track_prices_efficient.py lines 43-48):
if not values: return 0.0; idx = int(len(values) * percentile / 100);
return round(values[min(idx, len(values) - 1)], 2).
int(len * p / 100) truncates the exact quotient toward zero, which for
the nonnegative integers involved is natural-number division. -/
def calculate_percentile (values : List ℚ) (percentile : ℕ) : ℚ :=
  if values = [] then 0
  else round2 (values.getD (min (values.length * percentile / 100) (values.length - 1)) 0)

/- ## Data model (track_prices_efficient.py) -/

/-- Hourly price: a rational, or the float("inf") sentinel the API uses for
unpriced offerings. -/
inductive Price where
  | inf : Price
  | fin : ℚ → Price
deriving DecidableEq, Inhabited

/-- Python test c["price_per_hour"] != float("inf"). -/
def Price.isFinite : Price → Bool
  | .inf => false
  | .fin _ => true

/-- Numeric value of a price (junk 0 on the sentinel, on which the source
never does arithmetic: it is filtered out first). -/
def Price.val : Price → ℚ
  | .inf => 0
  | .fin q => q

/-- One configuration record as built by fetch_gpu_prices
(track_prices_efficient.py lines 192-205). -/
structure Config where
  cloud_id : String
  gpu_count : ℕ
  socket : String
  provider : String
  location : String
  stock_status : String
  price_per_hour : Price
  is_spot : Bool
  security : String
  vcpus : Option ℕ
  memory_gb : Option ℕ
  gpu_memory_gb : ℕ
deriving DecidableEq, Inhabited

/-- Per-GPU price of a record: price_per_hour / gpu_count. -/
def perGpu (c : Config) : ℚ := c.price_per_hour.val / (c.gpu_count : ℚ)

structure PriceStats where
  min : ℚ
  p10 : ℚ
  p25 : ℚ
  median : ℚ
  p75 : ℚ
  p90 : ℚ
  max : ℚ
  mean : ℚ
deriving DecidableEq, Inhabited

structure Availability where
  total : ℕ
  available : ℕ
  low : ℕ
  medium : ℕ
  high : ℕ
deriving DecidableEq, Inhabited

structure ProviderStats where
  count : ℕ
  min : ℚ
  avg : ℚ
deriving DecidableEq, Inhabited

structure BestDeal where
  provider : String
  location : String
  socket : String
  spot : Bool
deriving DecidableEq, Inhabited

structure ConfigStats where
  count : ℕ
  min_per_gpu : ℚ
  avg_per_gpu : ℚ
  min_total : ℚ
  avg_total : ℚ
  best_deal : BestDeal
deriving DecidableEq, Inhabited

structure Stats where
  price_stats : PriceStats
  availability : Availability
  by_provider : List (String × ProviderStats)
  by_config : List (ℕ × ConfigStats)
deriving DecidableEq, Inhabited

/-- Key list of a Python dict filled by inserting elements in iteration
order: first-occurrence order, no duplicates. -/
def insertKey {α : Type} [DecidableEq α] (ks : List α) (a : α) : List α :=
  if a ∈ ks then ks else ks ++ [a]

def orderedKeys {α : Type} [DecidableEq α] (l : List α) : List α :=
  l.foldl insertKey []

/-- Fold underlying Python min(l, key=f): the running best is replaced only
on a strictly smaller key, so ties keep the earlier element. -/
def minFold {α : Type} (f : α → ℚ) (x : α) (xs : List α) : α :=
  xs.foldl (fun best c => if f c < f best then c else best) x

/-- Python min(l, key=f): the first element attaining the minimum of f. -/
def minBy {α : Type} (f : α → ℚ) : List α → Option α
  | [] => none
  | x :: xs => some (minFold f x xs)

/-- The filter on line 57: keep records whose price is not the sentinel. -/
def validConfigs (configurations : List Config) : List Config :=
  configurations.filter (fun c => c.price_per_hour.isFinite)

/-- Per-provider entry (track_prices_efficient.py lines 86-101): count, min
and mean of the per-GPU prices of the provider's records, in iteration
order. -/
def providerEntry (valid_configs : List Config) (p : String) : ProviderStats :=
  let provider_prices := (valid_configs.filter (fun c => c.provider = p)).map perGpu
  { count := provider_prices.length
    min := round2 (listMin provider_prices)
    avg := round2 (provider_prices.sum / (provider_prices.length : ℚ)) }

/-- Per-GPU-count entry (track_prices_efficient.py lines 103-134). -/
def configEntry (valid_configs : List Config) (count : ℕ) : ConfigStats :=
  let configs := valid_configs.filter (fun c => c.gpu_count = count)
  let prices_per_gpu := configs.map perGpu
  let min_config := (minBy perGpu configs).getD default
  { count := configs.length
    min_per_gpu := round2 (perGpu min_config)
    avg_per_gpu := round2 (prices_per_gpu.sum / (prices_per_gpu.length : ℚ))
    min_total := round2 min_config.price_per_hour.val
    avg_total := round2 (prices_per_gpu.sum / (prices_per_gpu.length : ℚ) * (count : ℚ))
    best_deal :=
      { provider := min_config.provider
        location := min_config.location
        socket := min_config.socket
        spot := min_config.is_spot } }

/-- Body of aggregate_statistics over the already-filtered records
(track_prices_efficient.py lines 61-141). -/
def computeStats (valid_configs : List Config) : Stats :=
  let prices := (valid_configs.map perGpu).insertionSort (· ≤ ·)
  let price_stats : PriceStats :=
    { min := round2 (listMin prices)
      p10 := calculate_percentile prices 10
      p25 := calculate_percentile prices 25
      median := calculate_percentile prices 50
      p75 := calculate_percentile prices 75
      p90 := calculate_percentile prices 90
      max := round2 (listMax prices)
      mean := round2 (prices.sum / (prices.length : ℚ)) }
  let availability : Availability :=
    { total := valid_configs.length
      available := (valid_configs.filter (fun c => c.stock_status = "Available")).length
      low := (valid_configs.filter (fun c => c.stock_status = "Low")).length
      medium := (valid_configs.filter (fun c => c.stock_status = "Medium")).length
      high := (valid_configs.filter (fun c => c.stock_status = "High")).length }
  let by_provider : List (String × ProviderStats) :=
    (orderedKeys (valid_configs.map Config.provider)).map fun p =>
      (p, providerEntry valid_configs p)
  let by_config : List (ℕ × ConfigStats) :=
    (orderedKeys (valid_configs.map Config.gpu_count)).map fun count =>
      (count, configEntry valid_configs count)
  { price_stats := price_stats
    availability := availability
    by_provider := by_provider
    by_config := by_config }

/-- aggregate_statistics (track_prices_efficient.py lines 51-141): none is
the Python None ("no data"), returned for an empty input or when no record
has a finite price. -/
def aggregate_statistics (configurations : List Config) : Option Stats :=
  if configurations = [] then none
  else
    let valid_configs := validConfigs configurations
    if valid_configs = [] then none
    else some (computeStats valid_configs)

/-- The records of one GPU-count group, in original iteration order
(the filter inside configEntry, spelled out at top level). -/
def configGroup (configurations : List Config) (count : ℕ) : List Config :=
  (validConfigs configurations).filter (fun c => c.gpu_count = count)

/-- Example input for witnesses: two distinct-price single-GPU offerings
(the scenario of spec section 8, with unit GPU count). -/
def exConfigsC2 : List Config :=
  [{ cloud_id := "c1", gpu_count := 1, socket := "SXM5", provider := "A",
     location := "US", stock_status := "Available",
     price_per_hour := Price.fin 10, is_spot := false, security := "secure",
     vcpus := none, memory_gb := none, gpu_memory_gb := 80 },
   { cloud_id := "c2", gpu_count := 1, socket := "SXM5", provider := "B",
     location := "EU", stock_status := "Low",
     price_per_hour := Price.fin 30, is_spot := true, security := "secure",
     vcpus := none, memory_gb := none, gpu_memory_gb := 80 }]

/-- Example input with a per-GPU price tie between providers A and B. -/
def exConfigsTie : List Config :=
  [{ cloud_id := "t1", gpu_count := 1, socket := "SXM5", provider := "A",
     location := "US", stock_status := "Available",
     price_per_hour := Price.fin 10, is_spot := false, security := "secure",
     vcpus := none, memory_gb := none, gpu_memory_gb := 80 },
   { cloud_id := "t2", gpu_count := 1, socket := "PCIe", provider := "B",
     location := "EU", stock_status := "Low",
     price_per_hour := Price.fin 10, is_spot := true, security := "secure",
     vcpus := none, memory_gb := none, gpu_memory_gb := 80 }]

/-- First statistics object produced on the tie example (for witnesses). -/
def exStatsTie : Stats := (aggregate_statistics exConfigsTie).getD default

/-- The 1-GPU group entry of the tie example (for witnesses). -/
def exEntryTie : ConfigStats := configEntry (validConfigs exConfigsTie) 1

/- ## Persistence layer (save_snapshot; view_prices.py) -/

/-- One line of a summary JSONL file: the snapshot dict built by
save_snapshot (timestamp, gpu_type, socket_type, plus the statistics).
The stored ISO timestamp is modelled by the naive clock reading in seconds
that datetime.fromisoformat(...).replace(tzinfo=None) yields back;
JSON serialisation round-tripping is the identity. -/
structure Snapshot where
  timestamp : ℚ
  gpu_type : String
  socket_type : Option String
  stats : Stats
deriving DecidableEq, Inhabited

/-- The summary directory: file name to file content, none = file absent. -/
def LogFS : Type := String → Option (List Snapshot)

def emptyLogFS : LogFS := fun _ => none

/-- Filename derivation shared by save_snapshot
(track_prices_efficient.py line 149) and load_snapshots
(view_prices.py lines 19-22): gpu_type_socket.jsonl when a socket type is
given, gpu_type.jsonl otherwise. An empty socket string is falsy in
Python and also selects the plain name. -/
def logFileName (gpu_type : String) (socket_type : Option String) : String :=
  match socket_type with
  | some st =>
      if st = "" then gpu_type ++ ".jsonl" else gpu_type ++ "_" ++ st ++ ".jsonl"
  | none => gpu_type ++ ".jsonl"

/-- save_snapshot (track_prices_efficient.py lines 144-160): append one
single-line record to the key's file, creating the file if absent; no
other file is touched. -/
def save_snapshot (fs : LogFS) (gpu_type : String) (socket_type : Option String)
    (timestamp : ℚ) (stats : Stats) : LogFS :=
  fun k =>
    if k = logFileName gpu_type socket_type then
      some (((fs k).getD []) ++
        [{ timestamp := timestamp, gpu_type := gpu_type,
           socket_type := socket_type, stats := stats }])
    else fs k

/-- load_snapshots (view_prices.py lines 17-32): every record of the key's
file in stored order; a missing file yields []. -/
def load_snapshots (fs : LogFS) (gpu_type : String) (socket_type : Option String) :
    List Snapshot :=
  (fs (logFileName gpu_type socket_type)).getD []

/-- snapshots[-1] as printed by the latest view (view_prices.py
lines 58-78); none when the log is empty or missing (the view skips the
key silently). -/
def latest_snapshot (fs : LogFS) (gpu_type : String) (socket_type : Option String) :
    Option Snapshot :=
  (load_snapshots fs gpu_type socket_type).getLast?

/-- The record save_snapshot writes for one (timestamp, stats) pair. -/
def mkSnapshot (gpu_type : String) (socket_type : Option String)
    (e : ℚ × Stats) : Snapshot :=
  { timestamp := e.1, gpu_type := gpu_type, socket_type := socket_type,
    stats := e.2 }

/-- Repeated save_snapshot calls for one key: one (timestamp, stats) pair
per call, in order. -/
def appendSnapshots (fs : LogFS) (gpu_type : String) (socket_type : Option String)
    (entries : List (ℚ × Stats)) : LogFS :=
  entries.foldl (fun g e => save_snapshot g gpu_type socket_type e.1 e.2) fs

/-- What show_price_trend prints (view_prices.py lines 106-140). -/
inductive TrendView where
  | noData : TrendView
  | noRecent : TrendView
  | table : List Snapshot → TrendView
deriving DecidableEq, Inhabited

/-- show_price_trend (view_prices.py lines 106-140): read the
non-socket-suffixed log; keep the records whose naive stored timestamp dt
satisfies (now - dt) / 3600 <= hours against the naive local time now;
print them in stored order. noData when the log is empty or missing,
noRecent when the filter keeps nothing. -/
def show_price_trend (fs : LogFS) (now : ℚ) (gpu_type : String) (hours : ℚ) :
    TrendView :=
  let snapshots := load_snapshots fs gpu_type none
  if snapshots = [] then .noData
  else
    let recent := snapshots.filter (fun snap => (now - snap.timestamp) / 3600 ≤ hours)
    if recent = [] then .noRecent
    else .table recent

/-- Single record timestamped exactly at naive time 0 (trend-view example). -/
def exSnapNow : Snapshot :=
  { timestamp := 0, gpu_type := "B200_180GB", socket_type := none,
    stats := default }

/-- Summary directory holding only that record. -/
def exTrendFS : LogFS :=
  fun k => if k = logFileName "B200_180GB" none then some [exSnapNow] else none

/-- Single record timestamped one hour before naive time 0. -/
def exSnapPast : Snapshot :=
  { timestamp := -3600, gpu_type := "B200_180GB", socket_type := none,
    stats := default }

/-- Summary directory holding only that past record. -/
def exTrendPastFS : LogFS :=
  fun k => if k = logFileName "B200_180GB" none then some [exSnapPast] else none

/- ## Collector (track_prices_efficient.py main loop) -/

/-- One offering as returned by the availability client. -/
structure RawGpu where
  cloud_id : String
  gpu_count : ℕ
  socket : Option String
  provider : Option String
  country : Option String
  stock_status : String
  price : Price
  is_spot : Option Bool
  security : Option String
  vcpu : Option ℕ
  memory : Option ℕ
  gpu_memory : ℕ
deriving DecidableEq, Inhabited

/-- Python s or d for an optional string: None and "" are falsy. -/
def orDefault (s : Option String) (d : String) : String :=
  match s with
  | none => d
  | some v => if v = "" then d else v

/-- The record built from one offering (track_prices_efficient.py
lines 192-205). -/
def toConfig (gpu : RawGpu) : Config :=
  { cloud_id := gpu.cloud_id
    gpu_count := gpu.gpu_count
    socket := orDefault gpu.socket "N/A"
    provider := orDefault gpu.provider "unknown"
    location := orDefault gpu.country "N/A"
    stock_status := gpu.stock_status
    price_per_hour := gpu.price
    is_spot := (gpu.is_spot).getD false
    security := orDefault gpu.security "N/A"
    vcpus := gpu.vcpu
    memory_gb := gpu.memory
    gpu_memory_gb := gpu.gpu_memory }

/-- The availability response: model key to offerings, in dict order. -/
def AvailData : Type := List (String × List RawGpu)

/-- fetch_gpu_prices (track_prices_efficient.py lines 182-213): build one
configuration per offering over every key of the response; any exception
raised by the client is caught and yields the empty list. -/
def fetch_gpu_prices (fetchResult : Except String AvailData) : List Config :=
  match fetchResult with
  | .error _ => []
  | .ok availability_data =>
      availability_data.flatMap (fun kv => kv.2.map toConfig)

/-- GPU_TYPES (track_prices_efficient.py lines 19-28). -/
def GPU_TYPES : List String :=
  ["B200_180GB", "H200_96GB", "H200_141GB", "H100_80GB",
   "GH200_96GB", "GH200_480GB", "GH200_624GB", "A100_80GB"]

/-- SOCKET_TYPES_TO_TRACK (track_prices_efficient.py lines 32-35). -/
def SOCKET_TYPES_TO_TRACK : List (String × List String) :=
  [("H100_80GB", ["SXM5", "PCIe"]), ("A100_80GB", ["SXM4", "PCIe"])]

/-- One pending save_snapshot call: GPU type, socket (or none), statistics. -/
abbrev ModelAppend : Type := String × Option String × Stats

/-- One socket variant of a socket-tracked model (track_prices_efficient.py
lines 247-260): skipped when the socket-filtered subset is empty or the
aggregator reports no data, otherwise one save_snapshot call. -/
def socketAppend (gpu_type : String) (configurations : List Config)
    (socket_type : String) : Option ModelAppend :=
  let socket_configs := configurations.filter (fun c => c.socket = socket_type)
  if socket_configs = [] then none
  else
    match aggregate_statistics socket_configs with
    | none => none
    | some stats => some (gpu_type, some socket_type, stats)

/-- The save_snapshot calls the main loop performs for one model
(track_prices_efficient.py lines 236-274): none at all when the fetch
produced no records; with designated socket types, one aggregate per
non-empty socket-filtered subset with data, in socket order; otherwise a
single aggregate over all the model's records when it has data. -/
def modelAppends (gpu_type : String) (configurations : List Config) :
    List ModelAppend :=
  if configurations = [] then []
  else
    match SOCKET_TYPES_TO_TRACK.lookup gpu_type with
    | some socket_types =>
        socket_types.filterMap (socketAppend gpu_type configurations)
    | none =>
        match aggregate_statistics configurations with
        | none => []
        | some stats => [(gpu_type, none, stats)]

/-- All save_snapshot calls of one collector run over the given models, in
execution order. -/
def runAppends (fetch : String → Except String AvailData)
    (models : List String) : List ModelAppend :=
  models.flatMap fun gpu_type =>
    modelAppends gpu_type (fetch_gpu_prices (fetch gpu_type))

/-- Execute pending save_snapshot calls in order, all with the single
run timestamp taken once at the start of main (line 227). -/
def applyAppends (timestamp : ℚ) (fs : LogFS) (appends : List ModelAppend) : LogFS :=
  appends.foldl (fun g a => save_snapshot g a.1 a.2.1 timestamp a.2.2) fs

/-- The whole collector run over GPU_TYPES (track_prices_efficient.py
main, lines 216-284), as its effect on the summary directory. -/
def runCollector (fetch : String → Except String AvailData) (timestamp : ℚ)
    (fs : LogFS) : LogFS :=
  applyAppends timestamp fs (runAppends fetch GPU_TYPES)

/-- The all_configs mapping written to the full snapshot: one entry per
model whose fetch returned records (lines 236-241). -/
def runAllConfigs (fetch : String → Except String AvailData)
    (models : List String) : List (String × List Config) :=
  models.filterMap fun gpu_type =>
    let configurations := fetch_gpu_prices (fetch gpu_type)
    if configurations = [] then none else some (gpu_type, configurations)

/-- Example fetcher whose H200_96GB call raises (for the C8 witness). -/
def exFetchErr : String → Except String AvailData :=
  fun g => if g = "H200_96GB" then Except.error "connection" else Except.ok []

/-- The file a pending save_snapshot call writes to. -/
def appendKey (a : ModelAppend) : String := logFileName a.1 a.2.1

/-- The file names one model's save_snapshot calls can touch. -/
def modelKeys (g : String) : List String :=
  match SOCKET_TYPES_TO_TRACK.lookup g with
  | some socket_types => socket_types.map (fun st => logFileName g (some st))
  | none => [logFileName g none]

/-- Every file name a collector run can append to: socket-suffixed names
for the socket-tracked models, the plain name otherwise. -/
def allRunKeys : List String := GPU_TYPES.flatMap modelKeys

/- ## Arithmetic and list lemmas -/

theorem round2_mono {x y : ℚ} (h : x ≤ y) : round2 x ≤ round2 y := by
  unfold round2
  have h100 : (100 : ℚ) * x ≤ 100 * y := by nlinarith
  have hr : round ((100 : ℚ) * x) ≤ round ((100 : ℚ) * y) := by
    rw [round_eq, round_eq]
    exact Int.floor_le_floor (by linarith)
  rw [div_le_div_iff_of_pos_right (by norm_num : (0:ℚ) < 100)]
  exact_mod_cast hr

theorem round2_intCast (n : ℤ) : round2 (n : ℚ) = (n : ℚ) := by
  unfold round2
  have h : (100 : ℚ) * (n : ℚ) = ((100 * n : ℤ) : ℚ) := by push_cast; ring
  rw [h, round_intCast]
  push_cast
  field_simp

theorem foldl_min_le_init : ∀ (l : List ℚ) (a : ℚ), List.foldl min a l ≤ a
  | [], a => le_refl a
  | z :: zs, a =>
    le_trans (foldl_min_le_init zs (min a z)) (min_le_left _ _)

theorem foldl_min_le_mem : ∀ (l : List ℚ) (a x : ℚ), x ∈ l → List.foldl min a l ≤ x
  | [], _, _, hx => absurd hx (List.not_mem_nil _)
  | z :: zs, a, x, hx => by
    rcases List.mem_cons.mp hx with h1 | h2
    · subst h1
      exact le_trans (foldl_min_le_init zs (min a x)) (min_le_right _ _)
    · exact foldl_min_le_mem zs (min a z) x h2

theorem listMin_le_mem (l : List ℚ) (x : ℚ) (hx : x ∈ l) : listMin l ≤ x := by
  match l with
  | [] => cases hx
  | y :: ys =>
    unfold listMin
    rcases List.mem_cons.mp hx with h1 | h2
    · subst h1
      exact foldl_min_le_init ys x
    · exact foldl_min_le_mem ys y x h2

theorem init_le_foldl_max : ∀ (l : List ℚ) (a : ℚ), a ≤ List.foldl max a l
  | [], a => le_refl a
  | z :: zs, a =>
    le_trans (le_max_left _ _) (init_le_foldl_max zs (max a z))

theorem mem_le_foldl_max : ∀ (l : List ℚ) (a x : ℚ), x ∈ l → x ≤ List.foldl max a l
  | [], _, _, hx => absurd hx (List.not_mem_nil _)
  | z :: zs, a, x, hx => by
    rcases List.mem_cons.mp hx with h1 | h2
    · subst h1
      exact le_trans (le_max_right _ _) (init_le_foldl_max zs (max a x))
    · exact mem_le_foldl_max zs (max a z) x h2

theorem le_listMax_mem (l : List ℚ) (x : ℚ) (hx : x ∈ l) : x ≤ listMax l := by
  match l with
  | [] => cases hx
  | y :: ys =>
    unfold listMax
    rcases List.mem_cons.mp hx with h1 | h2
    · subst h1
      exact init_le_foldl_max ys x
    · exact mem_le_foldl_max ys y x h2

theorem sorted_getD_mono {l : List ℚ} (h : l.Sorted (· ≤ ·)) {i j : ℕ}
    (hij : i ≤ j) (hj : j < l.length) : l.getD i 0 ≤ l.getD j 0 := by
  have hi : i < l.length := lt_of_le_of_lt hij hj
  rw [List.getD_eq_getElem l 0 hi, List.getD_eq_getElem l 0 hj]
  have := h.rel_get_of_le (a := ⟨i, hi⟩) (b := ⟨j, hj⟩) hij
  simpa using this

theorem getD_mem {l : List ℚ} {i : ℕ} (hi : i < l.length) : l.getD i 0 ∈ l := by
  rw [List.getD_eq_getElem l 0 hi]
  exact List.getElem_mem _

theorem isFinite_eq_false_iff (p : Price) : p.isFinite = false ↔ p = Price.inf := by
  cases p <;> simp [Price.isFinite]

theorem validConfigs_eq_nil_iff (configurations : List Config) :
    validConfigs configurations = [] ↔
      ∀ c ∈ configurations, c.price_per_hour = Price.inf := by
  unfold validConfigs
  rw [List.filter_eq_nil_iff]
  constructor
  · intro h c hc
    have h2 := h c hc
    simp only [Bool.not_eq_true, isFinite_eq_false_iff] at h2
    exact h2
  · intro h c hc
    rw [h c hc]
    simp [Price.isFinite]

theorem validConfigs_idem (l : List Config) :
    validConfigs (validConfigs l) = validConfigs l := by
  unfold validConfigs
  apply List.filter_eq_self.mpr
  intro a ha
  exact @List.of_mem_filter Config (fun c => c.price_per_hour.isFinite) a l ha

/- ## Claim C1 -/

/-- C1: for a non-empty ascending-sorted price list of length n and percentile
p in the set 10, 25, 50, 75, 90, calculate_percentile returns the element at
index floor(n * p / 100) clamped to [0, n-1], rounded to 2 decimals; for n = 1
every percentile returns the (rounded) single element, and the nearest-rank
median of the sorted pair [5, 15] is 15, not the conventional average 10. -/
theorem percentile_nearest_rank (values : List ℚ) (p : ℕ)
    (hne : values ≠ []) (hsorted : values.Sorted (· ≤ ·))
    (hp : p ∈ [10, 25, 50, 75, 90]) :
    calculate_percentile values p
      = round2 (values.getD (min (values.length * p / 100) (values.length - 1)) 0)
    ∧ (∀ x : ℚ, calculate_percentile [x] p = round2 x)
    ∧ calculate_percentile [5, 15] 50 = 15 := by
  refine ⟨by simp [calculate_percentile, hne], ?_, ?_⟩
  · intro x
    have hle : p / 100 = 0 := by
      fin_cases hp <;> norm_num
    simp [calculate_percentile, hle]
  · have h15 : round2 (15 : ℚ) = 15 := by
      have h := round2_intCast 15
      push_cast at h
      exact h
    simp [calculate_percentile, h15]

theorem sorted_pair_5_15 : ([5, 15] : List ℚ).Sorted (· ≤ ·) := by
  refine List.sorted_cons.mpr ⟨?_, List.sorted_singleton _⟩
  intro b hb
  rw [List.mem_singleton] at hb
  subst hb
  norm_num

theorem percentile_nearest_rank_witness :
    calculate_percentile [5, 15] 50
      = round2 (([5, 15] : List ℚ).getD
          (min (([5, 15] : List ℚ).length * 50 / 100) (([5, 15] : List ℚ).length - 1)) 0)
    ∧ (∀ x : ℚ, calculate_percentile [x] 50 = round2 x)
    ∧ calculate_percentile [5, 15] 50 = 15 :=
  percentile_nearest_rank [5, 15] 50 (List.cons_ne_nil 5 [15])
    sorted_pair_5_15 (by simp)

/- ## Claim C3 -/

/-- C3: the aggregator returns none ("no data") exactly when the input list
is empty or every record's hourly price is the infinite sentinel, and its
result only depends on the records with a finite price: aggregating the
whole list equals aggregating the filtered list. No error is ever raised
(the function is total and returns an Option). -/
theorem aggregate_no_data (configurations : List Config) :
    (aggregate_statistics configurations = none ↔
      configurations = [] ∨ ∀ c ∈ configurations, c.price_per_hour = Price.inf)
    ∧ aggregate_statistics configurations
        = aggregate_statistics (validConfigs configurations) := by
  constructor
  · constructor
    · intro h
      by_cases hnil : configurations = []
      · exact Or.inl hnil
      · refine Or.inr ?_
        by_cases hv : validConfigs configurations = []
        · exact (validConfigs_eq_nil_iff _).mp hv
        · exfalso
          have hsome : aggregate_statistics configurations
              = some (computeStats (validConfigs configurations)) := by
            simp [aggregate_statistics, hnil, hv]
          rw [hsome] at h
          cases h
    · intro h
      rcases h with h | h
      · subst h
        simp [aggregate_statistics]
      · have hv : validConfigs configurations = [] :=
          (validConfigs_eq_nil_iff _).mpr h
        by_cases hnil : configurations = []
        · subst hnil
          simp [aggregate_statistics]
        · simp [aggregate_statistics, hnil, hv]
  · by_cases hnil : configurations = []
    · subst hnil
      simp [aggregate_statistics, validConfigs]
    · by_cases hv : validConfigs configurations = []
      · simp [aggregate_statistics, hnil, hv]
      · simp [aggregate_statistics, hnil, hv, validConfigs_idem]

/- ## Claim C2 -/

theorem computeStats_price_stats (valid_configs : List Config) :
    (computeStats valid_configs).price_stats =
      { min := round2 (listMin ((valid_configs.map perGpu).insertionSort (· ≤ ·)))
        p10 := calculate_percentile ((valid_configs.map perGpu).insertionSort (· ≤ ·)) 10
        p25 := calculate_percentile ((valid_configs.map perGpu).insertionSort (· ≤ ·)) 25
        median := calculate_percentile ((valid_configs.map perGpu).insertionSort (· ≤ ·)) 50
        p75 := calculate_percentile ((valid_configs.map perGpu).insertionSort (· ≤ ·)) 75
        p90 := calculate_percentile ((valid_configs.map perGpu).insertionSort (· ≤ ·)) 90
        max := round2 (listMax ((valid_configs.map perGpu).insertionSort (· ≤ ·)))
        mean := round2 (((valid_configs.map perGpu).insertionSort (· ≤ ·)).sum /
          (((valid_configs.map perGpu).insertionSort (· ≤ ·)).length : ℚ)) } := rfl

theorem clamped_idx_mono (n : ℕ) {p q : ℕ} (h : p ≤ q) :
    min (n * p / 100) (n - 1) ≤ min (n * q / 100) (n - 1) :=
  min_le_min (Nat.div_le_div_right (Nat.mul_le_mul_left n h)) (le_refl _)

theorem clamped_idx_lt {n : ℕ} (hn : 0 < n) (p : ℕ) :
    min (n * p / 100) (n - 1) < n :=
  lt_of_le_of_lt (min_le_right _ _) (Nat.sub_lt hn one_pos)

/-- C2: for every non-empty list of configurations whose prices are all
finite and positive (with positive GPU counts), the aggregator succeeds and
the rounded price statistics satisfy
min ≤ p10 ≤ p25 ≤ median ≤ p75 ≤ p90 ≤ max: the nearest-rank percentile
over the sorted per-GPU price array is monotone in the percentile and
bounded by the rounded minimum and maximum. -/
theorem price_stats_chain (configurations : List Config)
    (hne : configurations ≠ [])
    (hfin : ∀ c ∈ configurations, c.price_per_hour ≠ Price.inf)
    (hpos : ∀ c ∈ configurations, 0 < c.price_per_hour.val ∧ 0 < c.gpu_count) :
    ∃ s, aggregate_statistics configurations = some s ∧
      s.price_stats.min ≤ s.price_stats.p10 ∧
      s.price_stats.p10 ≤ s.price_stats.p25 ∧
      s.price_stats.p25 ≤ s.price_stats.median ∧
      s.price_stats.median ≤ s.price_stats.p75 ∧
      s.price_stats.p75 ≤ s.price_stats.p90 ∧
      s.price_stats.p90 ≤ s.price_stats.max := by
  have hvalid : validConfigs configurations = configurations := by
    unfold validConfigs
    apply List.filter_eq_self.mpr
    intro c hc
    cases hp : c.price_per_hour with
    | inf => exact absurd hp (hfin c hc)
    | fin q => simp [Price.isFinite]
  refine ⟨computeStats configurations, ?_, ?_⟩
  · simp [aggregate_statistics, hne, hvalid]
  · set prices := (configurations.map perGpu).insertionSort (· ≤ ·) with hprices
    have hsorted : prices.Sorted (· ≤ ·) := List.sorted_insertionSort _ _
    have hlen : prices.length = configurations.length := by
      rw [hprices, List.length_insertionSort, List.length_map]
    have hn : 0 < prices.length := by
      rw [hlen]
      exact List.length_pos.mpr hne
    have hpne : prices ≠ [] := List.ne_nil_of_length_pos hn
    have hcp : ∀ p : ℕ, calculate_percentile prices p
        = round2 (prices.getD (min (prices.length * p / 100) (prices.length - 1)) 0) := by
      intro p
      simp [calculate_percentile, hpne]
    have hstep : ∀ p q : ℕ, p ≤ q →
        calculate_percentile prices p ≤ calculate_percentile prices q := by
      intro p q hpq
      rw [hcp p, hcp q]
      exact round2_mono (sorted_getD_mono hsorted (clamped_idx_mono _ hpq)
        (clamped_idx_lt hn q))
    have hmin : round2 (listMin prices) ≤ calculate_percentile prices 10 := by
      rw [hcp 10]
      exact round2_mono (listMin_le_mem prices _ (getD_mem (clamped_idx_lt hn 10)))
    have hmax : calculate_percentile prices 90 ≤ round2 (listMax prices) := by
      rw [hcp 90]
      exact round2_mono (le_listMax_mem prices _ (getD_mem (clamped_idx_lt hn 90)))
    rw [computeStats_price_stats]
    exact ⟨hmin, hstep 10 25 (by norm_num), hstep 25 50 (by norm_num),
      hstep 50 75 (by norm_num), hstep 75 90 (by norm_num), hmax⟩

theorem exConfigsC2_pos :
    ∀ c ∈ exConfigsC2, 0 < c.price_per_hour.val ∧ 0 < c.gpu_count := by
  intro c hc
  simp only [exConfigsC2, List.mem_cons, List.mem_singleton] at hc
  rcases hc with h | h | h
  · subst h
    exact ⟨by norm_num [Price.val], by norm_num⟩
  · subst h
    exact ⟨by norm_num [Price.val], by norm_num⟩
  · cases h

theorem exConfigsC2_fin :
    ∀ c ∈ exConfigsC2, c.price_per_hour ≠ Price.inf := by
  intro c hc
  simp only [exConfigsC2, List.mem_cons, List.mem_singleton] at hc
  rcases hc with h | h | h
  · subst h
    simp
  · subst h
    simp
  · cases h

theorem price_stats_chain_witness :
    ∃ s, aggregate_statistics exConfigsC2 = some s ∧
      s.price_stats.min ≤ s.price_stats.p10 ∧
      s.price_stats.p10 ≤ s.price_stats.p25 ∧
      s.price_stats.p25 ≤ s.price_stats.median ∧
      s.price_stats.median ≤ s.price_stats.p75 ∧
      s.price_stats.p75 ≤ s.price_stats.p90 ∧
      s.price_stats.p90 ≤ s.price_stats.max :=
  price_stats_chain exConfigsC2 (List.cons_ne_nil _ _) exConfigsC2_fin exConfigsC2_pos

/- ## Argmin and grouping lemmas -/

theorem minFold_spec {α : Type} (f : α → ℚ) :
    ∀ (xs : List α) (x : α),
      ∃ l₁ l₂, x :: xs = l₁ ++ minFold f x xs :: l₂
        ∧ (∀ d ∈ l₁, f (minFold f x xs) < f d)
        ∧ ∀ d ∈ x :: xs, f (minFold f x xs) ≤ f d := by
  intro xs
  induction xs with
  | nil =>
    intro x
    refine ⟨[], [], rfl, by simp, ?_⟩
    intro d hd
    rw [List.mem_singleton] at hd
    subst hd
    exact le_refl _
  | cons y ys ih =>
    intro x
    by_cases hyx : f y < f x
    · obtain ⟨l₁, l₂, hdec, hstrict, hle⟩ := ih y
      have hfold : minFold f x (y :: ys) = minFold f y ys := by
        simp [minFold, hyx]
      rw [hfold]
      have hmy : f (minFold f y ys) ≤ f y := hle y (List.mem_cons_self _ _)
      refine ⟨x :: l₁, l₂, ?_, ?_, ?_⟩
      · rw [List.cons_append, ← hdec]
      · intro d hd
        rcases List.mem_cons.mp hd with h | h
        · subst h
          exact lt_of_le_of_lt hmy hyx
        · exact hstrict d h
      · intro d hd
        rcases List.mem_cons.mp hd with h | h
        · subst h
          exact le_of_lt (lt_of_le_of_lt hmy hyx)
        · exact hle d h
    · obtain ⟨l₁, l₂, hdec, hstrict, hle⟩ := ih x
      have hfold : minFold f x (y :: ys) = minFold f x ys := by
        simp [minFold, hyx]
      rw [hfold]
      have hxy : f x ≤ f y := le_of_not_lt hyx
      have hmx : f (minFold f x ys) ≤ f x := hle x (List.mem_cons_self _ _)
      cases l₁ with
      | nil =>
        rw [List.nil_append] at hdec
        injection hdec with h1 h2
        refine ⟨[], y :: l₂, ?_, by simp, ?_⟩
        · rw [List.nil_append, ← h1, ← h2]
        · intro d hd
          rcases List.mem_cons.mp hd with h | h
          · subst h
            exact hmx
          · rcases List.mem_cons.mp h with h | h
            · subst h
              exact le_trans hmx hxy
            · exact hle d (List.mem_cons_of_mem _ h)
      | cons a l₁t =>
        rw [List.cons_append] at hdec
        injection hdec with h1 h2
        have hmltx : f (minFold f x ys) < f x :=
          h1.symm ▸ hstrict a (List.mem_cons_self _ _)
        refine ⟨x :: y :: l₁t, l₂, ?_, ?_, ?_⟩
        · rw [List.cons_append, List.cons_append, ← h2]
        · intro d hd
          rcases List.mem_cons.mp hd with h | h
          · subst h
            exact hmltx
          · rcases List.mem_cons.mp h with h | h
            · subst h
              exact lt_of_lt_of_le hmltx hxy
            · exact hstrict d (List.mem_cons_of_mem _ h)
        · intro d hd
          rcases List.mem_cons.mp hd with h | h
          · subst h
            exact hmx
          · rcases List.mem_cons.mp h with h | h
            · subst h
              exact le_of_lt (lt_of_lt_of_le hmltx hxy)
            · exact hle d (List.mem_cons_of_mem _ h)

theorem mem_insertKey {α : Type} [DecidableEq α] (ks : List α) (x a : α) :
    a ∈ insertKey ks x ↔ a ∈ ks ∨ a = x := by
  by_cases h : x ∈ ks
  · rw [insertKey, if_pos h]
    constructor
    · exact Or.inl
    · rintro (h2 | rfl)
      · exact h2
      · exact h
  · rw [insertKey, if_neg h]
    simp [List.mem_append]

theorem mem_foldl_insertKey {α : Type} [DecidableEq α] :
    ∀ (l ks : List α) (a : α), a ∈ l.foldl insertKey ks ↔ a ∈ ks ∨ a ∈ l
  | [], ks, a => by simp
  | x :: xs, ks, a => by
    rw [List.foldl_cons, mem_foldl_insertKey xs (insertKey ks x) a, mem_insertKey]
    constructor
    · rintro ((h | h) | h)
      · exact Or.inl h
      · subst h
        exact Or.inr (List.mem_cons_self _ _)
      · exact Or.inr (List.mem_cons_of_mem _ h)
    · rintro (h | h)
      · exact Or.inl (Or.inl h)
      · rcases List.mem_cons.mp h with h | h
        · exact Or.inl (Or.inr h)
        · exact Or.inr h

theorem mem_orderedKeys {α : Type} [DecidableEq α] (l : List α) (a : α) :
    a ∈ orderedKeys l ↔ a ∈ l := by
  rw [orderedKeys, mem_foldl_insertKey]
  simp

theorem aggregate_some_elim {configurations : List Config} {s : Stats}
    (hs : aggregate_statistics configurations = some s) :
    s = computeStats (validConfigs configurations)
    ∧ validConfigs configurations ≠ [] := by
  by_cases h1 : configurations = []
  · subst h1
    simp [aggregate_statistics] at hs
  · by_cases h2 : validConfigs configurations = []
    · simp [aggregate_statistics, h1, h2] at hs
    · simp [aggregate_statistics, h1, h2] at hs
      exact ⟨hs.symm, h2⟩

theorem computeStats_by_config (valid_configs : List Config) :
    (computeStats valid_configs).by_config =
      (orderedKeys (valid_configs.map Config.gpu_count)).map
        (fun count => (count, configEntry valid_configs count)) := rfl

theorem by_config_elim {valid_configs : List Config} {count : ℕ} {cs : ConfigStats}
    (hmem : (count, cs) ∈ (computeStats valid_configs).by_config) :
    cs = configEntry valid_configs count ∧
      ∃ c ∈ valid_configs, c.gpu_count = count := by
  rw [computeStats_by_config] at hmem
  rcases List.mem_map.mp hmem with ⟨k, hk, heq⟩
  have hk1 : k = count := congrArg Prod.fst heq
  subst hk1
  refine ⟨(congrArg Prod.snd heq).symm, ?_⟩
  have hmap : k ∈ valid_configs.map Config.gpu_count := (mem_orderedKeys _ _).mp hk
  rcases List.mem_map.mp hmap with ⟨c, hc, hck⟩
  exact ⟨c, hc, hck⟩

theorem configEntry_eq (configurations : List Config) (count : ℕ) :
    configEntry (validConfigs configurations) count =
      { count := (configGroup configurations count).length
        min_per_gpu := round2 (perGpu
          ((minBy perGpu (configGroup configurations count)).getD default))
        avg_per_gpu := round2 (((configGroup configurations count).map perGpu).sum /
          ((((configGroup configurations count).map perGpu)).length : ℚ))
        min_total := round2
          ((minBy perGpu (configGroup configurations count)).getD default).price_per_hour.val
        avg_total := round2 (((configGroup configurations count).map perGpu).sum /
          ((((configGroup configurations count).map perGpu)).length : ℚ) * (count : ℚ))
        best_deal :=
          { provider := ((minBy perGpu (configGroup configurations count)).getD default).provider
            location := ((minBy perGpu (configGroup configurations count)).getD default).location
            socket := ((minBy perGpu (configGroup configurations count)).getD default).socket
            spot := ((minBy perGpu (configGroup configurations count)).getD default).is_spot } } :=
  rfl

/- ## Claims C5 and C6 -/

/-- C5: for every GPU-count group in the aggregator's output, min_total is
the (rounded) hourly price of a record of that group whose per-GPU price is
minimal in the group, and avg_total is the (rounded) group mean per-GPU
price multiplied by the GPU count. -/
theorem config_group_totals (configurations : List Config) (s : Stats)
    (count : ℕ) (cs : ConfigStats)
    (hs : aggregate_statistics configurations = some s)
    (hmem : (count, cs) ∈ s.by_config) :
    ∃ c ∈ configGroup configurations count,
      (∀ d ∈ configGroup configurations count, perGpu c ≤ perGpu d)
      ∧ cs.min_total = round2 c.price_per_hour.val
      ∧ cs.avg_total = round2
          (((configGroup configurations count).map perGpu).sum
            / (((configGroup configurations count).map perGpu).length : ℚ)
            * (count : ℚ)) := by
  obtain ⟨hseq, hvne⟩ := aggregate_some_elim hs
  subst hseq
  obtain ⟨hcs, c₀, hc₀, hck⟩ := by_config_elim hmem
  rw [configEntry_eq] at hcs
  have hgrp_ne : configGroup configurations count ≠ [] := by
    apply List.ne_nil_of_mem (a := c₀)
    apply List.mem_filter.mpr
    exact ⟨hc₀, by simp [hck]⟩
  obtain ⟨x, xs, hxg⟩ : ∃ x xs, configGroup configurations count = x :: xs := by
    cases hg : configGroup configurations count with
    | nil => exact absurd hg hgrp_ne
    | cons x xs => exact ⟨x, xs, rfl⟩
  obtain ⟨l₁, l₂, hdec, hstrict, hle⟩ := minFold_spec perGpu xs x
  have hminBy : minBy perGpu (configGroup configurations count)
      = some (minFold perGpu x xs) := by
    rw [hxg]
    rfl
  refine ⟨minFold perGpu x xs, ?_, ?_, ?_, ?_⟩
  · rw [hxg, hdec]
    exact List.mem_append_right _ (List.mem_cons_self _ _)
  · intro d hd
    rw [hxg] at hd
    exact hle d hd
  · rw [hcs, hminBy]
    rfl
  · rw [hcs]

/-- C6: for every GPU-count group, the best_deal descriptor is taken from
a record of the group with minimal per-GPU price, and that record is the
first such record in original iteration order: every record strictly
before it in the group has a strictly larger per-GPU price. -/
theorem best_deal_first_min (configurations : List Config) (s : Stats)
    (count : ℕ) (cs : ConfigStats)
    (hs : aggregate_statistics configurations = some s)
    (hmem : (count, cs) ∈ s.by_config) :
    ∃ c l₁ l₂, configGroup configurations count = l₁ ++ c :: l₂
      ∧ (∀ d ∈ l₁, perGpu c < perGpu d)
      ∧ (∀ d ∈ configGroup configurations count, perGpu c ≤ perGpu d)
      ∧ cs.best_deal =
          { provider := c.provider
            location := c.location
            socket := c.socket
            spot := c.is_spot } := by
  obtain ⟨hseq, hvne⟩ := aggregate_some_elim hs
  subst hseq
  obtain ⟨hcs, c₀, hc₀, hck⟩ := by_config_elim hmem
  rw [configEntry_eq] at hcs
  have hgrp_ne : configGroup configurations count ≠ [] := by
    apply List.ne_nil_of_mem (a := c₀)
    apply List.mem_filter.mpr
    exact ⟨hc₀, by simp [hck]⟩
  obtain ⟨x, xs, hxg⟩ : ∃ x xs, configGroup configurations count = x :: xs := by
    cases hg : configGroup configurations count with
    | nil => exact absurd hg hgrp_ne
    | cons x xs => exact ⟨x, xs, rfl⟩
  obtain ⟨l₁, l₂, hdec, hstrict, hle⟩ := minFold_spec perGpu xs x
  have hminBy : minBy perGpu (configGroup configurations count)
      = some (minFold perGpu x xs) := by
    rw [hxg]
    rfl
  refine ⟨minFold perGpu x xs, l₁, l₂, ?_, hstrict, ?_, ?_⟩
  · rw [hxg, hdec]
  · intro d hd
    rw [hxg] at hd
    exact hle d hd
  · rw [hcs, hminBy]
    rfl

theorem exTie_agg : aggregate_statistics exConfigsTie = some exStatsTie := rfl

theorem exTie_by_config : exStatsTie.by_config = [(1, exEntryTie)] := rfl

theorem exTie_mem : (1, exEntryTie) ∈ exStatsTie.by_config := by
  rw [exTie_by_config]
  exact List.mem_singleton.mpr rfl

theorem config_group_totals_witness :
    ∃ c ∈ configGroup exConfigsTie 1,
      (∀ d ∈ configGroup exConfigsTie 1, perGpu c ≤ perGpu d)
      ∧ exEntryTie.min_total = round2 c.price_per_hour.val
      ∧ exEntryTie.avg_total = round2
          (((configGroup exConfigsTie 1).map perGpu).sum
            / (((configGroup exConfigsTie 1).map perGpu).length : ℚ)
            * ((1 : ℕ) : ℚ)) :=
  config_group_totals exConfigsTie exStatsTie 1 exEntryTie exTie_agg exTie_mem

theorem best_deal_first_min_witness :
    ∃ c l₁ l₂, configGroup exConfigsTie 1 = l₁ ++ c :: l₂
      ∧ (∀ d ∈ l₁, perGpu c < perGpu d)
      ∧ (∀ d ∈ configGroup exConfigsTie 1, perGpu c ≤ perGpu d)
      ∧ exEntryTie.best_deal =
          { provider := c.provider
            location := c.location
            socket := c.socket
            spot := c.is_spot } :=
  best_deal_first_min exConfigsTie exStatsTie 1 exEntryTie exTie_agg exTie_mem

/- ## Claim C4 -/

theorem save_snapshot_apply (fs : LogFS) (gpu_type : String)
    (socket_type : Option String) (timestamp : ℚ) (stats : Stats) (k : String) :
    ((save_snapshot fs gpu_type socket_type timestamp stats) k).getD []
      = (fs k).getD []
        ++ (if k = logFileName gpu_type socket_type then
              [mkSnapshot gpu_type socket_type (timestamp, stats)] else []) := by
  unfold save_snapshot mkSnapshot
  by_cases h : k = logFileName gpu_type socket_type
  · rw [if_pos h, if_pos h]
    rfl
  · rw [if_neg h, if_neg h, List.append_nil]

theorem appendSnapshots_apply (gpu_type : String) (socket_type : Option String) :
    ∀ (entries : List (ℚ × Stats)) (fs : LogFS) (k : String),
      ((appendSnapshots fs gpu_type socket_type entries) k).getD []
        = (fs k).getD []
          ++ (if k = logFileName gpu_type socket_type then
                entries.map (mkSnapshot gpu_type socket_type) else [])
  | [], fs, k => by
    unfold appendSnapshots
    simp
  | e :: es, fs, k => by
    have hstep : appendSnapshots fs gpu_type socket_type (e :: es)
        = appendSnapshots (save_snapshot fs gpu_type socket_type e.1 e.2)
            gpu_type socket_type es := rfl
    rw [hstep, appendSnapshots_apply gpu_type socket_type es _ k,
      save_snapshot_apply]
    by_cases h : k = logFileName gpu_type socket_type
    · rw [if_pos h, if_pos h, if_pos h, List.append_assoc]
      rfl
    · rw [if_neg h, if_neg h, if_neg h]
      simp

/-- C4: appending N aggregate snapshots under one (model, socket) key and
reading that log back yields the previous content followed by exactly
those N records in insertion order (exactly the N records when the log
started empty); an append never rewrites or truncates existing lines of
any file (old content stays a prefix); and the latest view prints exactly
the last appended record. -/
theorem log_append_roundtrip (fs : LogFS) (gpu_type : String)
    (socket_type : Option String) (entries : List (ℚ × Stats))
    (hne : entries ≠ []) :
    load_snapshots (appendSnapshots fs gpu_type socket_type entries)
        gpu_type socket_type
      = load_snapshots fs gpu_type socket_type
        ++ entries.map (mkSnapshot gpu_type socket_type)
    ∧ (∀ k, ∃ t, ((appendSnapshots fs gpu_type socket_type entries) k).getD []
        = (fs k).getD [] ++ t)
    ∧ (load_snapshots fs gpu_type socket_type = [] →
        load_snapshots (appendSnapshots fs gpu_type socket_type entries)
            gpu_type socket_type
          = entries.map (mkSnapshot gpu_type socket_type))
    ∧ latest_snapshot (appendSnapshots fs gpu_type socket_type entries)
          gpu_type socket_type
        = Option.map (mkSnapshot gpu_type socket_type) entries.getLast? := by
  have hload : load_snapshots (appendSnapshots fs gpu_type socket_type entries)
      gpu_type socket_type
      = load_snapshots fs gpu_type socket_type
        ++ entries.map (mkSnapshot gpu_type socket_type) := by
    unfold load_snapshots
    rw [appendSnapshots_apply, if_pos rfl]
  refine ⟨hload, ?_, ?_, ?_⟩
  · intro k
    rw [appendSnapshots_apply]
    exact ⟨_, rfl⟩
  · intro hempty
    rw [hload, hempty, List.nil_append]
  · unfold latest_snapshot
    rw [hload, List.getLast?_append, List.getLast?_map]
    have hsome : ∃ x, entries.getLast? = some x := by
      cases hlast : entries.getLast? with
      | none => exact absurd (List.getLast?_eq_none_iff.mp hlast) hne
      | some x => exact ⟨x, rfl⟩
    rcases hsome with ⟨x, hx⟩
    rw [hx]
    rfl

theorem log_append_roundtrip_witness :
    load_snapshots (appendSnapshots emptyLogFS "H100_80GB" (some "SXM5")
        [(0, default), (1, default)]) "H100_80GB" (some "SXM5")
      = load_snapshots emptyLogFS "H100_80GB" (some "SXM5")
        ++ ([(0, default), (1, default)] : List (ℚ × Stats)).map
            (mkSnapshot "H100_80GB" (some "SXM5"))
    ∧ (∀ k, ∃ t, ((appendSnapshots emptyLogFS "H100_80GB" (some "SXM5")
        [(0, default), (1, default)]) k).getD []
        = (emptyLogFS k).getD [] ++ t)
    ∧ (load_snapshots emptyLogFS "H100_80GB" (some "SXM5") = [] →
        load_snapshots (appendSnapshots emptyLogFS "H100_80GB" (some "SXM5")
            [(0, default), (1, default)]) "H100_80GB" (some "SXM5")
          = ([(0, default), (1, default)] : List (ℚ × Stats)).map
              (mkSnapshot "H100_80GB" (some "SXM5")))
    ∧ latest_snapshot (appendSnapshots emptyLogFS "H100_80GB" (some "SXM5")
          [(0, default), (1, default)]) "H100_80GB" (some "SXM5")
        = Option.map (mkSnapshot "H100_80GB" (some "SXM5"))
            ([(0, default), (1, default)] : List (ℚ × Stats)).getLast? :=
  log_append_roundtrip emptyLogFS "H100_80GB" (some "SXM5")
    [(0, default), (1, default)] (List.cons_ne_nil _ _)

/- ## Claim C7 -/

theorem exTrend_load : load_snapshots exTrendFS "B200_180GB" none = [exSnapNow] := by
  unfold load_snapshots exTrendFS
  rw [if_pos rfl]
  rfl

/-- C7 counterexample: a non-empty log whose single record is timestamped
exactly at the current naive time; with a 0-hour window the filter keeps
that record ((now - dt) / 3600 = 0 <= 0) and the trend view prints it as a
data row, so a 0-hour window does not print "no data" for every non-empty
log. -/
theorem trend_zero_hours_counterexample :
    load_snapshots exTrendFS "B200_180GB" none ≠ []
    ∧ show_price_trend exTrendFS 0 "B200_180GB" 0
        = TrendView.table [exSnapNow] := by
  constructor
  · rw [exTrend_load]
    exact List.cons_ne_nil _ _
  · simp only [show_price_trend]
    rw [exTrend_load]
    have hkeep : ([exSnapNow].filter
        (fun snap => decide ((0 - snap.timestamp) / 3600 ≤ 0))) = [exSnapNow] := by
      have h0 : ((0 : ℚ) - exSnapNow.timestamp) / 3600 ≤ 0 := by
        norm_num [exSnapNow]
      rw [List.filter_cons, if_pos (decide_eq_true h0), List.filter_nil]
    rw [if_neg (List.cons_ne_nil _ _), hkeep,
      if_neg (List.cons_ne_nil _ _)]

/-- C7 as amended: with a 0-hour window the trend filter keeps exactly the
records whose naive stored timestamp is at or after the current naive
time; consequently, whenever every stored timestamp is strictly earlier
than now, the trend view over a non-empty log prints no data rows (the
"No data in the last N hours" outcome). The original claim, quantified
over every non-empty log, fails on a record timestamped at or after now
(see the counterexample). -/
theorem trend_zero_hours_past (fs : LogFS) (gpu_type : String) (now : ℚ)
    (hne : load_snapshots fs gpu_type none ≠ [])
    (hpast : ∀ snap ∈ load_snapshots fs gpu_type none, snap.timestamp < now) :
    show_price_trend fs now gpu_type 0 = TrendView.noRecent := by
  simp only [show_price_trend]
  rw [if_neg hne]
  have hfilter : ((load_snapshots fs gpu_type none).filter
      (fun snap => decide ((now - snap.timestamp) / 3600 ≤ 0))) = [] := by
    rw [List.filter_eq_nil_iff]
    intro snap hsnap
    simp only [decide_eq_true_eq]
    push_neg
    have h1 : 0 < now - snap.timestamp := sub_pos.mpr (hpast snap hsnap)
    exact div_pos h1 (by norm_num)
  rw [hfilter]
  rfl

theorem exTrendPast_load :
    load_snapshots exTrendPastFS "B200_180GB" none = [exSnapPast] := by
  unfold load_snapshots exTrendPastFS
  rw [if_pos rfl]
  rfl

theorem exTrendPast_ne : load_snapshots exTrendPastFS "B200_180GB" none ≠ [] := by
  rw [exTrendPast_load]
  exact List.cons_ne_nil _ _

theorem exTrendPast_before :
    ∀ snap ∈ load_snapshots exTrendPastFS "B200_180GB" none,
      snap.timestamp < 0 := by
  intro snap hsnap
  rw [exTrendPast_load, List.mem_singleton] at hsnap
  subst hsnap
  norm_num [exSnapPast]

theorem trend_zero_hours_past_witness :
    show_price_trend exTrendPastFS 0 "B200_180GB" 0 = TrendView.noRecent :=
  trend_zero_hours_past exTrendPastFS "B200_180GB" 0 exTrendPast_ne
    exTrendPast_before

/- ## Claim C8 -/

/-- C8: when the pricing client raises for a model, fetch_gpu_prices
returns the empty record list for it, and a collector run over any model
sequence containing that model performs exactly the log appends and
full-snapshot entries of the same run without it: the failure is isolated
to that model, every other model is still processed, and the run (a total
function) completes. -/
theorem fetch_error_isolated (fetch : String → Except String AvailData)
    (e m : String) (models₁ models₂ : List String)
    (hm : fetch m = Except.error e) :
    fetch_gpu_prices (fetch m) = []
    ∧ runAppends fetch (models₁ ++ m :: models₂)
        = runAppends fetch (models₁ ++ models₂)
    ∧ runAllConfigs fetch (models₁ ++ m :: models₂)
        = runAllConfigs fetch (models₁ ++ models₂) := by
  have hzero : fetch_gpu_prices (fetch m) = [] := by
    rw [hm]
    rfl
  refine ⟨hzero, ?_, ?_⟩
  · unfold runAppends
    rw [List.flatMap_append, List.flatMap_append, List.flatMap_cons, hzero]
    rw [show modelAppends m [] = [] from rfl, List.nil_append]
  · simp [runAllConfigs, List.filterMap_append, List.filterMap_cons, hzero]

theorem exFetchErr_raises : exFetchErr "H200_96GB" = Except.error "connection" := by
  rw [exFetchErr]
  rfl

theorem fetch_error_isolated_witness :
    fetch_gpu_prices (exFetchErr "H200_96GB") = []
    ∧ runAppends exFetchErr (["B200_180GB"] ++ "H200_96GB" :: ["H100_80GB"])
        = runAppends exFetchErr (["B200_180GB"] ++ ["H100_80GB"])
    ∧ runAllConfigs exFetchErr (["B200_180GB"] ++ "H200_96GB" :: ["H100_80GB"])
        = runAllConfigs exFetchErr (["B200_180GB"] ++ ["H100_80GB"]) :=
  fetch_error_isolated exFetchErr "connection" "H200_96GB"
    ["B200_180GB"] ["H100_80GB"] exFetchErr_raises

/- ## Claims C9 and C10 -/

theorem applyAppends_apply (timestamp : ℚ) :
    ∀ (appends : List ModelAppend) (fs : LogFS) (k : String),
      ((applyAppends timestamp fs appends) k).getD []
        = (fs k).getD []
          ++ (appends.filter (fun a => appendKey a = k)).map
              (fun a => mkSnapshot a.1 a.2.1 (timestamp, a.2.2))
  | [], fs, k => by
    unfold applyAppends
    simp
  | a :: as, fs, k => by
    have hstep : applyAppends timestamp fs (a :: as)
        = applyAppends timestamp (save_snapshot fs a.1 a.2.1 timestamp a.2.2) as := rfl
    rw [hstep, applyAppends_apply timestamp as _ k, save_snapshot_apply,
      List.filter_cons]
    by_cases h : appendKey a = k
    · rw [if_pos (decide_eq_true h),
        if_pos (show k = logFileName a.1 a.2.1 from h.symm), List.map_cons,
        List.append_assoc]
      rfl
    · rw [if_neg (fun hp => h (of_decide_eq_true hp)),
        if_neg (show ¬ k = logFileName a.1 a.2.1 from fun hk => h hk.symm)]
      simp

theorem applyAppends_untouched (timestamp : ℚ) :
    ∀ (appends : List ModelAppend) (fs : LogFS) (k : String),
      (∀ a ∈ appends, appendKey a ≠ k) →
      (applyAppends timestamp fs appends) k = fs k
  | [], _, _, _ => rfl
  | a :: as, fs, k, h => by
    have hstep : applyAppends timestamp fs (a :: as)
        = applyAppends timestamp (save_snapshot fs a.1 a.2.1 timestamp a.2.2) as := rfl
    rw [hstep, applyAppends_untouched timestamp as _ k
      (fun b hb => h b (List.mem_cons_of_mem _ hb))]
    unfold save_snapshot
    rw [if_neg (fun hk => h a (List.mem_cons_self _ _) hk.symm)]

theorem map_filterMap_sublist {α β γ : Type} (f : α → Option β) (g : β → γ)
    (h : α → γ) (H : ∀ a b, f a = some b → g b = h a) :
    ∀ l : List α, ((l.filterMap f).map g).Sublist (l.map h)
  | [] => List.nil_sublist _
  | a :: l => by
    rw [List.filterMap_cons, List.map_cons]
    cases hfa : f a with
    | none => exact List.Sublist.cons _ (map_filterMap_sublist f g h H l)
    | some b =>
      rw [List.map_cons, H a b hfa]
      exact List.Sublist.cons₂ _ (map_filterMap_sublist f g h H l)

theorem socketAppend_key (gpu_type : String) (configurations : List Config)
    (socket_type : String) (a : ModelAppend)
    (hsome : socketAppend gpu_type configurations socket_type = some a) :
    appendKey a = logFileName gpu_type (some socket_type) := by
  simp only [socketAppend] at hsome
  by_cases h1 : configurations.filter (fun c => c.socket = socket_type) = []
  · rw [if_pos h1] at hsome
    cases hsome
  · rw [if_neg h1] at hsome
    cases hagg : aggregate_statistics
        (configurations.filter (fun c => c.socket = socket_type)) with
    | none =>
      rw [hagg] at hsome
      cases hsome
    | some stats =>
      rw [hagg] at hsome
      injection hsome with hinj
      rw [← hinj]
      rfl

theorem modelAppends_keys_sublist (gpu_type : String)
    (configurations : List Config) :
    ((modelAppends gpu_type configurations).map appendKey).Sublist
      (modelKeys gpu_type) := by
  unfold modelAppends modelKeys
  by_cases hc : configurations = []
  · rw [if_pos hc]
    exact List.nil_sublist _
  · rw [if_neg hc]
    cases SOCKET_TYPES_TO_TRACK.lookup gpu_type with
    | some socket_types =>
      exact map_filterMap_sublist _ appendKey _
        (fun st a hsome => socketAppend_key gpu_type configurations st a hsome)
        socket_types
    | none =>
      cases hagg : aggregate_statistics configurations with
      | none => exact List.nil_sublist _
      | some stats => exact List.Sublist.refl _

theorem runAppends_keys_sublist (fetch : String → Except String AvailData) :
    ∀ models : List String,
      ((runAppends fetch models).map appendKey).Sublist
        (models.flatMap modelKeys)
  | [] => List.nil_sublist _
  | m :: ms => by
    have hstep : runAppends fetch (m :: ms)
        = modelAppends m (fetch_gpu_prices (fetch m)) ++ runAppends fetch ms :=
      List.flatMap_cons _ _ _
    rw [hstep, List.map_append, List.flatMap_cons]
    exact (modelAppends_keys_sublist m _).append (runAppends_keys_sublist fetch ms)

theorem filter_key_length_le_one {α β : Type} [DecidableEq β] (key : α → β) :
    ∀ l : List α, (l.map key).Nodup →
      ∀ k : β, (l.filter (fun a => key a = k)).length ≤ 1
  | [], _, _ => by simp
  | a :: l, hnodup, k => by
    rw [List.map_cons, List.nodup_cons] at hnodup
    rw [List.filter_cons]
    by_cases h : key a = k
    · rw [if_pos (decide_eq_true h)]
      have hnil : l.filter (fun b => key b = k) = [] := by
        rw [List.filter_eq_nil_iff]
        intro b hb hbk
        apply hnodup.1
        have : key b = key a := by
          rw [h]
          exact of_decide_eq_true hbk
        rw [← this]
        exact List.mem_map_of_mem key hb
      rw [hnil]
      simp
    · rw [if_neg (fun hp => h (of_decide_eq_true hp))]
      exact filter_key_length_le_one key l hnodup.2 k

theorem allRunKeys_nodup : allRunKeys.Nodup := by decide

/-- C9: within one collector run, each summary file receives at most one
new record (at most one aggregate snapshot per (model, socket-or-none)
key, whose log file that is), and every record appended during the run
carries the single run timestamp computed once at the start of main. -/
theorem run_snapshot_invariant (fetch : String → Except String AvailData)
    (timestamp : ℚ) (fs : LogFS) (k : String) :
    (((runCollector fetch timestamp fs) k).getD []).length
        ≤ ((fs k).getD []).length + 1
    ∧ ∀ snap ∈ (((runCollector fetch timestamp fs) k).getD []).drop
        ((fs k).getD []).length, snap.timestamp = timestamp := by
  have happly : ((runCollector fetch timestamp fs) k).getD []
      = (fs k).getD []
        ++ ((runAppends fetch GPU_TYPES).filter (fun a => appendKey a = k)).map
            (fun a => mkSnapshot a.1 a.2.1 (timestamp, a.2.2)) :=
    applyAppends_apply timestamp (runAppends fetch GPU_TYPES) fs k
  have hnodup : ((runAppends fetch GPU_TYPES).map appendKey).Nodup :=
    (runAppends_keys_sublist fetch GPU_TYPES).nodup allRunKeys_nodup
  have hlen : ((runAppends fetch GPU_TYPES).filter
      (fun a => appendKey a = k)).length ≤ 1 :=
    filter_key_length_le_one appendKey _ hnodup k
  constructor
  · rw [happly, List.length_append, List.length_map]
    omega
  · intro snap hsnap
    rw [happly, List.drop_left] at hsnap
    rcases List.mem_map.mp hsnap with ⟨a, ha, hsnapeq⟩
    rw [← hsnapeq]
    rfl

/-- C10: for the socket-split models H100_80GB and A100_80GB the collector
only ever appends to socket-suffixed files, never to the plain
model.jsonl: a run leaves the plain file untouched; and since
show_price_trend always reads the plain file, the trend view for such a
model over a directory populated only by a collector run reports no
data. -/
theorem socket_models_trend_no_data (fetch : String → Except String AvailData)
    (timestamp : ℚ) (fs : LogFS) (gpu_type : String)
    (hsock : gpu_type = "H100_80GB" ∨ gpu_type = "A100_80GB") :
    (runCollector fetch timestamp fs) (logFileName gpu_type none)
        = fs (logFileName gpu_type none)
    ∧ ∀ now hours : ℚ, show_price_trend (runCollector fetch timestamp emptyLogFS)
        now gpu_type hours = TrendView.noData := by
  have hk : logFileName gpu_type none ∉ allRunKeys := by
    rcases hsock with h | h <;> subst h <;> decide
  have huntouched : ∀ g : LogFS,
      (runCollector fetch timestamp g) (logFileName gpu_type none)
        = g (logFileName gpu_type none) := by
    intro g
    apply applyAppends_untouched
    intro a ha hkey
    apply hk
    rw [← hkey]
    exact (runAppends_keys_sublist fetch GPU_TYPES).subset
      (List.mem_map_of_mem appendKey ha)
  refine ⟨huntouched fs, ?_⟩
  intro now hours
  have hempty : load_snapshots (runCollector fetch timestamp emptyLogFS)
      gpu_type none = [] := by
    unfold load_snapshots
    rw [huntouched emptyLogFS]
    rfl
  simp only [show_price_trend]
  rw [hempty]
  rfl

theorem socket_models_trend_no_data_witness :
    (runCollector (fun _ => Except.ok []) 0 emptyLogFS)
        (logFileName "H100_80GB" none)
      = emptyLogFS (logFileName "H100_80GB" none)
    ∧ ∀ now hours : ℚ,
        show_price_trend (runCollector (fun _ => Except.ok []) 0 emptyLogFS)
          now "H100_80GB" hours = TrendView.noData :=
  socket_models_trend_no_data (fun _ => Except.ok []) 0 emptyLogFS
    "H100_80GB" (Or.inl rfl)
